import Mathlib

/-!
Verification of the `swap` utility (src/main.rs).

The program is embedded shallowly:

* Absolute canonical paths are lists of name components; the filesystem root
  is `[]`.  `Path::parent` and `Path::file_name` become `parent?` / `fileName?`.
* A filesystem is a finite association list from paths to nodes (file with
  contents, or directory); the descendants of a directory `p` are the entries
  whose key has `p` as a strict prefix.
* `std::fs::rename` is modelled after its documented behaviour on Unix
  (POSIX `rename(2)`): a single atomic move of the whole subtree, which
  REPLACES an existing destination entry of a compatible kind (file over
  file, directory over empty directory) and fails otherwise.
* The random `uuid::Uuid::new_v4()` of `generate_temporary_path` is modelled
  as an input parameter `uuid` threaded through the program: one fresh value
  per invocation.
* `fs::canonicalize` touches the real environment (cwd, symlinks), so `run`
  takes it as an oracle `canon`; `Path::is_dir` is answered from the
  modelled filesystem.
* A Rust panic (`Option::unwrap` on `None`) is a distinguished `panicked`
  outcome, so unreachability of the unwraps is a provable statement.
* The world state `St` carries the filesystem and a trace of every rename
  call issued (recorded when `fs::rename` is invoked, success or not), so
  "performs no rename" and "exactly these renames in this order" are
  statements about the trace.
-/

namespace Swap

/-- A filesystem node: either a regular file with its contents, or a directory. -/
inductive Node : Type
  | file (data : String)
  | dir
deriving DecidableEq, Repr

/-- A filesystem: a finite association list from absolute canonical paths
(component lists, root `[]`) to nodes.  An entry whose key has `p` as a
strict prefix lies inside the directory `p`. -/
abbrev FS : Type := List (List String × Node)

/-- First-match lookup of the node stored at path `p`. -/
def FS.find : FS → List String → Option Node
  | [], _ => none
  | e :: rest, p => if e.1 = p then some e.2 else FS.find rest p

/-- Does `p` currently name a directory?  (Models `Path::is_dir`.) -/
def FS.isDir (fs : FS) (p : List String) : Bool :=
  match FS.find fs p with
  | some Node.dir => true
  | _ => false

/-- `true` iff no entry lies strictly below `p` (`p` is a leaf or an empty
directory). -/
def FS.noDesc (fs : FS) (p : List String) : Bool :=
  fs.all fun e => !(p.isPrefixOf e.1) || decide (e.1 = p)

/-- Relocate the whole subtree rooted at `src` to `dst`, dropping whatever
was stored at `dst` (rename replaces the destination). -/
def FS.move (fs : FS) (src dst : List String) : FS :=
  fs.filterMap fun e =>
    if src.isPrefixOf e.1 then some (dst ++ e.1.drop src.length, e.2)
    else if dst.isPrefixOf e.1 then none
    else some e

/-- Model of `std::fs::rename`, i.e. POSIX `rename(2)` on one filesystem:

* fails if `src` does not exist;
* renaming a path to itself succeeds and changes nothing;
* fails if `src` is a strict ancestor of `dst` (cannot move a directory
  into its own subtree);
* requires the parent of `dst` to exist and be a directory;
* if `dst` already exists: a file may replace a file, a directory may
  replace an empty directory, every other combination fails.  Note that an
  existing destination of a compatible kind is atomically REPLACED — per
  the documented Unix behaviour of `std::fs::rename`, the call does not
  fail merely because the destination exists. -/
def FS.rename (fs : FS) (src dst : List String) : Option FS :=
  match FS.find fs src with
  | none => none
  | some nsrc =>
    if src = dst then some fs
    else if src.isPrefixOf dst then none
    else if dst = [] then none
    else if FS.isDir fs dst.dropLast then
      match FS.find fs dst, nsrc with
      | none, _ => some (FS.move fs src dst)
      | some (Node.file _), Node.file _ => some (FS.move fs src dst)
      | some Node.dir, Node.dir =>
          if FS.noDesc fs dst then some (FS.move fs src dst) else none
      | _, _ => none
    else none

/-- The `SwapError` enum of src/main.rs.  `Io` keeps the path stored next to
the wrapped `io::Error` (the io error value itself carries no information
the model needs). -/
inductive SwapError : Type
  | Io (path : List String)
  | PathNotFound (path : List String)
  | SamePath
  | SwapIntoSubdirectory
  | MissingParent (path : List String)
deriving DecidableEq, Repr

/-- World state: the filesystem together with the list of rename calls
issued so far, each recorded as (from, to) at the moment `fs::rename` is
invoked, whether or not it succeeds. -/
structure St where
  fs : FS
  trace : List (List String × List String)
deriving DecidableEq, Repr

/-- Outcome of running a piece of the program: normal return, error return,
or a Rust panic (`Option::unwrap` on `None`), with the final world state. -/
inductive Outcome : Type
  | ok (s : St)
  | err (e : SwapError) (s : St)
  | panicked (s : St)
deriving DecidableEq, Repr

/-- Is this outcome a panic? -/
def Outcome.isPanic : Outcome → Bool
  | Outcome.panicked _ => true
  | _ => false

/-- `Path::parent` on a canonical absolute path: `none` exactly for the
root, otherwise the path without its last component. -/
def parent? (p : List String) : Option (List String) :=
  if p = [] then none else some p.dropLast

/-- `Path::file_name` on a canonical absolute path: `none` exactly for the
root, otherwise the last component. -/
def fileName? (p : List String) : Option String :=
  p.getLast?

/-- Result of a helper that may return, error, or panic. -/
inductive PRes (α : Type) : Type
  | ok (a : α)
  | err (e : SwapError)
  | panicked
deriving DecidableEq

/-- Is this helper result a panic? -/
def PRes.isPanic {α : Type} : PRes α → Bool
  | PRes.panicked => true
  | _ => false

/-- The temporary file name built by `generate_temporary_path`: the original
base name, the fixed marker `.swap.`, and the per-invocation unique id. -/
def tmpName (n u : String) : String := n ++ ".swap." ++ u

/-- `generate_temporary_path` from src/main.rs: derive a sibling path of
`original_path` carrying the temporary name.  The `to_str().unwrap_or`
fallback never fires in the model because component names are `String`s.
The function computes a name only — it neither reads nor modifies the
filesystem. -/
def generate_temporary_path (original_path : List String) (uuid : String) :
    PRes (List String) :=
  match parent? original_path with
  | none => PRes.err (SwapError.MissingParent original_path)
  | some parent =>
    match fileName? original_path with
    | none => PRes.panicked
    | some original_filename =>
      PRes.ok (parent ++ [tmpName original_filename uuid])

/-- `safe_rename` from src/main.rs: one `fs::rename` attempt, wrapping a
failure as `SwapError::Io` carrying the source path.  The attempt is
recorded in the trace either way. -/
def safe_rename (f t : List String) (s : St) : Outcome :=
  match FS.rename s.fs f t with
  | some fs2 => Outcome.ok ⟨fs2, s.trace ++ [(f, t)]⟩
  | none => Outcome.err (SwapError.Io f) ⟨s.fs, s.trace ++ [(f, t)]⟩

/-- `swap_locations` from src/main.rs: move each entry into the other's
directory, keeping its own name, via a temporary sibling of `path1`. -/
def swap_locations (path1 path2 : List String) (uuid : String) (s : St) :
    Outcome :=
  match parent? path1 with
  | none => Outcome.err (SwapError.MissingParent path1) s
  | some parent1 =>
  match parent? path2 with
  | none => Outcome.err (SwapError.MissingParent path2) s
  | some parent2 =>
  match fileName? path1 with
  | none => Outcome.panicked s
  | some name1 =>
  match fileName? path2 with
  | none => Outcome.panicked s
  | some name2 =>
  let final_dest1 := parent2 ++ [name1]
  let final_dest2 := parent1 ++ [name2]
  match generate_temporary_path path1 uuid with
  | PRes.err e => Outcome.err e s
  | PRes.panicked => Outcome.panicked s
  | PRes.ok temp_path =>
  match safe_rename path1 temp_path s with
  | Outcome.ok s1 =>
    match safe_rename path2 final_dest2 s1 with
    | Outcome.ok s2 => safe_rename temp_path final_dest1 s2
    | r => r
  | r => r

/-- `swap_names` from src/main.rs: rename each entry to the other's name,
each staying in its own directory, via a temporary sibling of `path1`. -/
def swap_names (path1 path2 : List String) (uuid : String) (s : St) :
    Outcome :=
  match parent? path1 with
  | none => Outcome.err (SwapError.MissingParent path1) s
  | some parent1 =>
  match parent? path2 with
  | none => Outcome.err (SwapError.MissingParent path2) s
  | some parent2 =>
  match fileName? path1 with
  | none => Outcome.panicked s
  | some name1 =>
  match fileName? path2 with
  | none => Outcome.panicked s
  | some name2 =>
  let final_dest1 := parent1 ++ [name2]
  let final_dest2 := parent2 ++ [name1]
  match generate_temporary_path path1 uuid with
  | PRes.err e => Outcome.err e s
  | PRes.panicked => Outcome.panicked s
  | PRes.ok temp_path =>
  match safe_rename path1 temp_path s with
  | Outcome.ok s1 =>
    match safe_rename path2 final_dest2 s1 with
    | Outcome.ok s2 => safe_rename temp_path final_dest1 s2
    | r => r
  | r => r

/-- Classification of an `fs::canonicalize` failure, as tested by the
`map_canonicalize_error` closure: `notFound` models
`io::ErrorKind::NotFound`, `other` any other io error. -/
inductive CanonFail : Type
  | notFound
  | other
deriving DecidableEq, Repr

/-- The `map_canonicalize_error` closure inside `run`. -/
def map_canonicalize_error (e : CanonFail) (path : List String) : SwapError :=
  match e with
  | CanonFail.notFound => SwapError.PathNotFound path
  | CanonFail.other => SwapError.Io path

/-- The CLI arguments supplied by the collaborator (paths as component
lists; `verbose` only drives logging and is irrelevant to the model). -/
structure Cli where
  path1 : List String
  path2 : List String
  name_swap : Bool
  verbose : Bool

/-- `run` from src/main.rs.  `canon` is the environment's
`fs::canonicalize`: it resolves a user-supplied path to a canonical
absolute one or reports a classified failure.  `Path::is_dir` is answered
from the modelled filesystem. -/
def run (canon : List String → Except CanonFail (List String)) (uuid : String)
    (cli : Cli) (s : St) : Outcome :=
  match canon cli.path1 with
  | Except.error e => Outcome.err (map_canonicalize_error e cli.path1) s
  | Except.ok path1 =>
  match canon cli.path2 with
  | Except.error e => Outcome.err (map_canonicalize_error e cli.path2) s
  | Except.ok path2 =>
  if path1 = path2 then Outcome.err SwapError.SamePath s
  else if FS.isDir s.fs path1 && path1.isPrefixOf path2 then
    Outcome.err SwapError.SwapIntoSubdirectory s
  else if FS.isDir s.fs path2 && path2.isPrefixOf path1 then
    Outcome.err SwapError.SwapIntoSubdirectory s
  else if cli.name_swap then swap_names path1 path2 uuid s
  else swap_locations path1 path2 uuid s

/-- Two paths are incomparable: neither is a prefix of the other.  Distinct
non-nested paths are incomparable, and a fresh temporary name is
incomparable with every path not mentioning it. -/
def Incomp (p q : List String) : Prop := ¬ p <+: q ∧ ¬ q <+: p

/-- The filesystem is ancestor-closed: every strict ancestor of an existing
entry's path is itself present and is a directory.  This holds of every
real filesystem state and is the well-formedness assumption of the model. -/
def Closed (fs : FS) : Prop :=
  ∀ e ∈ fs, ∀ n, n < e.1.length → FS.find fs (e.1.take n) = some Node.dir

instance Incomp.decidable (p q : List String) : Decidable (Incomp p q) := by
  unfold Incomp
  infer_instance

instance Closed.decidable (fs : FS) : Decidable (Closed fs) := by
  unfold Closed
  infer_instance

/-- Verification helper: the three-move skeleton shared by the two engines,
with source `a`, pivot `t`, second source `b` and the two destinations. -/
def do_three (a t b d2 d1 : List String) (s : St) : Outcome :=
  match safe_rename a t s with
  | Outcome.ok s1 =>
    match safe_rename b d2 s1 with
    | Outcome.ok s2 => safe_rename t d1 s2
    | r => r
  | r => r

/-! ### Concrete states used to instantiate the theorems -/

/-- A small concrete filesystem: directories `/p` and `/q`, file `/p/a`
with content "A", file `/q/b` with content "B". -/
def wFS : FS :=
  [([], Node.dir), (["p"], Node.dir), (["q"], Node.dir),
   (["p", "a"], Node.file "A"), (["q", "b"], Node.file "B")]

/-- Initial concrete state over `wFS`, empty trace. -/
def wS : St := ⟨wFS, []⟩

/-- State after a successful LocationSwap of `/p/a` and `/q/b` (id "u"). -/
def wS1 : St :=
  ⟨[([], Node.dir), (["p"], Node.dir), (["q"], Node.dir),
    (["q", "a"], Node.file "A"), (["p", "b"], Node.file "B")],
   [(["p", "a"], ["p", "a.swap.u"]), (["q", "b"], ["p", "b"]),
    (["p", "a.swap.u"], ["q", "a"])]⟩

/-- State after a successful NameSwap of `/p/a` and `/q/b` (id "u"). -/
def wS2 : St :=
  ⟨[([], Node.dir), (["p"], Node.dir), (["q"], Node.dir),
    (["p", "b"], Node.file "A"), (["q", "a"], Node.file "B")],
   [(["p", "a"], ["p", "a.swap.u"]), (["q", "b"], ["q", "a"]),
    (["p", "a.swap.u"], ["p", "b"])]⟩

/-- State after re-applying LocationSwap to the two relocated entries
(id "v"): the filesystem is `wFS` again. -/
def wS9 : St :=
  ⟨wFS,
   [(["p", "a"], ["p", "a.swap.u"]), (["q", "b"], ["p", "b"]),
    (["p", "a.swap.u"], ["q", "a"]), (["q", "a"], ["q", "a.swap.v"]),
    (["p", "b"], ["q", "b"]), (["q", "a.swap.v"], ["p", "a"])]⟩

/-- Filesystem after move 1 of a swap of `/p/a` with the nonexistent
`/q/c`: `/p/a` is parked at its temporary name, move 2 will fail. -/
def wFS1 : FS :=
  [([], Node.dir), (["p"], Node.dir), (["q"], Node.dir),
   (["p", "a.swap.u"], Node.file "A"), (["q", "b"], Node.file "B")]

/-- Concrete state for the C3 counterexample: like `wS` but a `victim`
file already sits at `/p/b` — the destination of move 2 of
`swap_locations /p/a /q/b`. -/
def wCex : St :=
  ⟨[([], Node.dir), (["p"], Node.dir), (["q"], Node.dir),
    (["p", "a"], Node.file "A"), (["q", "b"], Node.file "B"),
    (["p", "b"], Node.file "victim")], []⟩

/-- Outcome state of the C3 counterexample run: the swap succeeded and the
victim entry is gone, silently replaced by B's content. -/
def wCexOut : St :=
  ⟨[([], Node.dir), (["p"], Node.dir), (["q"], Node.dir),
    (["q", "a"], Node.file "A"), (["p", "b"], Node.file "B")],
   [(["p", "a"], ["p", "a.swap.u"]), (["q", "b"], ["p", "b"]),
    (["p", "a.swap.u"], ["q", "a"])]⟩

/-- CLI input whose first path is a directory containing the second. -/
def wCli4 : Cli := ⟨["p"], ["p", "a"], false, false⟩

/-- The same two paths in the reversed order, name-swap mode. -/
def wCli4r : Cli := ⟨["p", "a"], ["p"], true, false⟩

/-- CLI input with two textually different paths. -/
def wCli5 : Cli := ⟨["x", "y"], ["z"], true, false⟩

/-- CLI input whose first path will fail to resolve. -/
def wCli7 : Cli := ⟨["r1"], ["z"], false, false⟩

/-- A canonicalization oracle that fails with not-found on `["r1"]` and
resolves every other path to itself. -/
def wCanon7 : List String → Except CanonFail (List String) := fun p =>
  if p = ["r1"] then Except.error CanonFail.notFound else Except.ok p

/-! ### List and prefix helpers -/

lemma pfx_bool {p q : List String} : p.isPrefixOf q = true ↔ p <+: q :=
  List.isPrefixOf_iff_prefix

lemma pfx_bool_true {p q : List String} (h : p <+: q) : p.isPrefixOf q = true :=
  pfx_bool.mpr h

lemma pfx_bool_false {p q : List String} (h : ¬ p <+: q) : p.isPrefixOf q = false := by
  cases hb : p.isPrefixOf q
  · rfl
  · exact absurd (pfx_bool.mp hb) h

lemma pfx_bool_not {p q : List String} (h : ¬ p <+: q) : ¬ p.isPrefixOf q = true :=
  fun hc => h (pfx_bool.mp hc)

lemma pfx_len_lt {p q : List String} (h : p <+: q) (hne : p ≠ q) :
    p.length < q.length := by
  rcases Nat.lt_or_ge p.length q.length with h1 | h1
  · exact h1
  · exact absurd (h.eq_of_length (Nat.le_antisymm h.length_le h1)) hne

lemma pfx_cases {p q r : List String} (h : p <+: q ++ r) : p <+: q ∨ q <+: p := by
  rcases h with ⟨t, ht⟩
  rcases List.append_eq_append_iff.mp ht with ⟨a, ha, _⟩ | ⟨c, hc, _⟩
  · exact Or.inl ⟨a, ha.symm⟩
  · exact Or.inr ⟨c, hc.symm⟩

lemma pfx_concat {p q : List String} {x : String} (h : p <+: q ++ [x])
    (hne : p ≠ q ++ [x]) : p <+: q := by
  rcases pfx_cases h with h1 | h1
  · exact h1
  · have hlt : p.length < (q ++ [x]).length := pfx_len_lt h hne
    have hle : p.length ≤ q.length := by
      simp only [List.length_append, List.length_singleton] at hlt
      omega
    have heq : q = p := h1.eq_of_length (Nat.le_antisymm h1.length_le hle)
    subst heq
    exact List.prefix_refl q

lemma not_pfx_ext {p q : List String} (h : Incomp p q) (r : List String) :
    ¬ p <+: q ++ r := fun hc => (pfx_cases hc).elim h.1 h.2

lemma Incomp.symm {p q : List String} (h : Incomp p q) : Incomp q p := ⟨h.2, h.1⟩

lemma Incomp.ne {p q : List String} (h : Incomp p q) : p ≠ q := fun he =>
  h.1 (he ▸ List.prefix_refl p)

lemma concat_inj {p q : List String} {a b : String} (h : p ++ [a] = q ++ [b]) :
    p = q ∧ a = b := by
  constructor
  · have h2 := congrArg List.dropLast h
    simpa using h2
  · have h2 := congrArg List.getLast? h
    simpa using h2

lemma tmpName_len (n u : String) : (tmpName n u).length = n.length + 6 + u.length := by
  simp [tmpName, String.length_append]
  rfl

lemma tmpName_ne (n u : String) : tmpName n u ≠ n := by
  intro h
  have h2 := congrArg String.length h
  rw [tmpName_len] at h2
  omega

/-! ### Lookup, membership and the move lemmas -/

lemma find_nil (p : List String) : FS.find [] p = none := rfl

lemma find_cons (e : List String × Node) (fs : FS) (p : List String) :
    FS.find (e :: fs) p = if e.1 = p then some e.2 else FS.find fs p := rfl

lemma move_cons (e : List String × Node) (fs : FS) (src dst : List String) :
    FS.move (e :: fs) src dst =
      if src.isPrefixOf e.1 then
        (dst ++ e.1.drop src.length, e.2) :: FS.move fs src dst
      else if dst.isPrefixOf e.1 then FS.move fs src dst
      else e :: FS.move fs src dst := by
  unfold FS.move
  rw [List.filterMap_cons]
  cases h1 : src.isPrefixOf e.1
  · cases h2 : dst.isPrefixOf e.1 <;> simp [h1, h2]
  · simp [h1]

lemma find_mem {fs : FS} {q : List String} {n : Node} (h : FS.find fs q = some n) :
    (q, n) ∈ fs := by
  induction fs with
  | nil => simp [find_nil] at h
  | cons e fs ih =>
    rw [find_cons] at h
    by_cases he : e.1 = q
    · rw [if_pos he] at h
      injection h with h2
      have : e = (q, n) := by
        obtain ⟨k, v⟩ := e
        simp_all
      rw [this]
      exact List.mem_cons_self _ _
    · rw [if_neg he] at h
      exact List.mem_cons_of_mem _ (ih h)

lemma mem_find_isSome {fs : FS} {q : List String} {n : Node} (h : (q, n) ∈ fs) :
    (FS.find fs q).isSome := by
  induction fs with
  | nil => simp at h
  | cons e fs ih =>
    rw [find_cons]
    by_cases he : e.1 = q
    · simp [he]
    · rcases List.mem_cons.mp h with h2 | h2
      · exact absurd (congrArg Prod.fst h2).symm he
      · rw [if_neg he]
        exact ih h2

/-- Looking below the destination of a move sees the moved source subtree. -/
lemma move_find_dst (fs : FS) (src dst rest : List String) :
    FS.find (FS.move fs src dst) (dst ++ rest) = FS.find fs (src ++ rest) := by
  induction fs with
  | nil => rfl
  | cons e fs ih =>
    obtain ⟨k, v⟩ := e
    rw [move_cons]
    by_cases h1 : src <+: k
    · obtain ⟨tail, htail⟩ := h1
      subst htail
      rw [if_pos (pfx_bool_true ⟨tail, rfl⟩), find_cons, find_cons]
      dsimp only
      simp only [List.drop_left]
      by_cases hc : tail = rest
      · subst hc
        rw [if_pos rfl, if_pos rfl]
      · rw [if_neg (fun hx => hc (List.append_cancel_left hx)),
          if_neg (fun hx => hc (List.append_cancel_left hx)), ih]
    · rw [if_neg (pfx_bool_not h1)]
      have hne1 : k ≠ src ++ rest := fun hx => h1 (by rw [hx]; exact ⟨rest, rfl⟩)
      by_cases h2 : dst <+: k
      · rw [if_pos (pfx_bool_true h2), ih, find_cons]
        dsimp only
        rw [if_neg hne1]
      · rw [if_neg (pfx_bool_not h2), find_cons, find_cons]
        dsimp only
        have hne2 : k ≠ dst ++ rest := fun hx => h2 (by rw [hx]; exact ⟨rest, rfl⟩)
        rw [if_neg hne1, if_neg hne2, ih]

/-- A path below neither `src` nor `dst` is untouched by a move. -/
lemma move_find_other (fs : FS) (src dst : List String) {q : List String}
    (hs : ¬ src <+: q) (hd : ¬ dst <+: q) :
    FS.find (FS.move fs src dst) q = FS.find fs q := by
  induction fs with
  | nil => rfl
  | cons e fs ih =>
    obtain ⟨k, v⟩ := e
    rw [move_cons]
    by_cases h1 : src <+: k
    · rw [if_pos (pfx_bool_true h1), find_cons, find_cons]
      dsimp only
      have hne : dst ++ k.drop src.length ≠ q := fun hx =>
        hd (by rw [← hx]; exact ⟨k.drop src.length, rfl⟩)
      have hne2 : k ≠ q := fun hx => hs (hx ▸ h1)
      rw [if_neg hne, if_neg hne2, ih]
    · rw [if_neg (pfx_bool_not h1)]
      by_cases h2 : dst <+: k
      · rw [if_pos (pfx_bool_true h2), ih, find_cons]
        dsimp only
        have hne : k ≠ q := fun hx => hd (hx ▸ h2)
        rw [if_neg hne]
      · rw [if_neg (pfx_bool_not h2), find_cons, find_cons, ih]

/-- A path below `src` but not below `dst` is vacated by a move. -/
lemma move_find_src (fs : FS) (src dst : List String) {q : List String}
    (hs : src <+: q) (hd : ¬ dst <+: q) :
    FS.find (FS.move fs src dst) q = none := by
  induction fs with
  | nil => rfl
  | cons e fs ih =>
    obtain ⟨k, v⟩ := e
    rw [move_cons]
    by_cases h1 : src <+: k
    · rw [if_pos (pfx_bool_true h1), find_cons]
      dsimp only
      have hne : dst ++ k.drop src.length ≠ q := fun hx =>
        hd (by rw [← hx]; exact ⟨k.drop src.length, rfl⟩)
      rw [if_neg hne, ih]
    · rw [if_neg (pfx_bool_not h1)]
      have hne2 : k ≠ q := fun hx => h1 (hx ▸ hs)
      by_cases h2 : dst <+: k
      · rw [if_pos (pfx_bool_true h2), ih]
      · rw [if_neg (pfx_bool_not h2), find_cons]
        dsimp only
        rw [if_neg hne2, ih]

/-! ### Facts about a successful or failing rename -/

lemma isDir_iff {fs : FS} {p : List String} :
    FS.isDir fs p = true ↔ FS.find fs p = some Node.dir := by
  unfold FS.isDir
  cases hf : FS.find fs p with
  | none => simp
  | some nd => cases nd <;> simp

/-- A successful rename either moved the subtree or was the trivial
self-rename. -/
lemma rename_ok_cases {fs fs' : FS} {src dst : List String}
    (h : FS.rename fs src dst = some fs') :
    (src = dst ∧ fs' = fs) ∨ (src ≠ dst ∧ fs' = FS.move fs src dst) := by
  unfold FS.rename at h
  cases hf : FS.find fs src <;> rw [hf] at h
  · simp at h
  · dsimp only at h
    by_cases he : src = dst
    · rw [if_pos he] at h
      injection h with h2
      exact Or.inl ⟨he, h2.symm⟩
    · rw [if_neg he] at h
      refine Or.inr ⟨he, ?_⟩
      repeat' split at h
      all_goals simp_all

lemma rename_ok_src_isSome {fs fs' : FS} {src dst : List String}
    (h : FS.rename fs src dst = some fs') : (FS.find fs src).isSome := by
  unfold FS.rename at h
  cases hf : FS.find fs src <;> rw [hf] at h
  · simp at h
  · rfl

lemma rename_ok_guards {fs fs' : FS} {src dst : List String}
    (h : FS.rename fs src dst = some fs') (hne : src ≠ dst) :
    ¬ src <+: dst ∧ dst ≠ [] ∧ FS.isDir fs dst.dropLast = true := by
  unfold FS.rename at h
  cases hf : FS.find fs src <;> rw [hf] at h
  · simp at h
  · dsimp only at h
    rw [if_neg hne] at h
    by_cases hp : src <+: dst
    · rw [if_pos (pfx_bool_true hp)] at h
      simp at h
    · rw [if_neg (pfx_bool_not hp)] at h
      by_cases hnil : dst = []
      · rw [if_pos hnil] at h
        simp at h
      · rw [if_neg hnil] at h
        cases hd : FS.isDir fs dst.dropLast <;> rw [hd] at h
        · simp at h
        · exact ⟨hp, hnil, rfl⟩

lemma rename_find_dst {fs fs' : FS} {src dst : List String}
    (h : FS.rename fs src dst = some fs') (rest : List String) :
    FS.find fs' (dst ++ rest) = FS.find fs (src ++ rest) := by
  rcases rename_ok_cases h with ⟨he, hfs⟩ | ⟨_, hfs⟩
  · rw [hfs, he]
  · rw [hfs]
    exact move_find_dst fs src dst rest

lemma rename_find_other {fs fs' : FS} {src dst : List String}
    (h : FS.rename fs src dst = some fs') {q : List String}
    (hs : ¬ src <+: q) (hd : ¬ dst <+: q) :
    FS.find fs' q = FS.find fs q := by
  rcases rename_ok_cases h with ⟨_, hfs⟩ | ⟨_, hfs⟩
  · rw [hfs]
  · rw [hfs]
    exact move_find_other fs src dst hs hd

lemma rename_find_src {fs fs' : FS} {src dst : List String}
    (h : FS.rename fs src dst = some fs') (hne : src ≠ dst) {q : List String}
    (hs : src <+: q) (hd : ¬ dst <+: q) :
    FS.find fs' q = none := by
  rcases rename_ok_cases h with ⟨he, _⟩ | ⟨_, hfs⟩
  · exact absurd he hne
  · rw [hfs]
    exact move_find_src fs src dst hs hd

/-- A rename onto an existing non-empty directory fails. -/
lemma rename_fails {fs : FS} {src dst : List String}
    (hdir : FS.find fs dst = some Node.dir)
    (hdesc : ∃ e ∈ fs, dst <+: e.1 ∧ e.1 ≠ dst)
    (hne : src ≠ dst) :
    FS.rename fs src dst = none := by
  unfold FS.rename
  cases hf : FS.find fs src
  · rfl
  · dsimp only
    rw [if_neg hne]
    by_cases hp : src <+: dst
    · rw [if_pos (pfx_bool_true hp)]
    · rw [if_neg (pfx_bool_not hp)]
      by_cases hnil : dst = []
      · rw [if_pos hnil]
      · rw [if_neg hnil]
        by_cases hd : FS.isDir fs dst.dropLast = true
        · rw [if_pos hd, hdir]
          rename_i nsrc
          cases nsrc with
          | file d => rfl
          | dir =>
            have hfalse : FS.noDesc fs dst = false := by
              obtain ⟨e, he, hpre, hne2⟩ := hdesc
              unfold FS.noDesc
              rw [List.all_eq_false]
              exact ⟨e, he, by simp [pfx_bool_true hpre, hne2]⟩
            rw [hfalse]
            rfl
        · rw [if_neg hd]

/-! ### Preservation of well-formedness -/

lemma Closed.ancestor {fs : FS} (hC : Closed fs) {p q : List String}
    (hpq : p <+: q) (hne : p ≠ q) (hq : (FS.find fs q).isSome) :
    FS.find fs p = some Node.dir := by
  obtain ⟨n, hn⟩ := Option.isSome_iff_exists.mp hq
  have hmem := find_mem hn
  have hlt : p.length < q.length := pfx_len_lt hpq hne
  have htake : q.take p.length = p := (List.prefix_iff_eq_take.mp hpq).symm
  have h2 := hC (q, n) hmem p.length (by simpa using hlt)
  dsimp only at h2
  rwa [htake] at h2

lemma move_mem {fs : FS} {src dst : List String} {e' : List String × Node}
    (h : e' ∈ FS.move fs src dst) :
    (∃ tail v, (src ++ tail, v) ∈ fs ∧ e' = (dst ++ tail, v)) ∨
    (e' ∈ fs ∧ ¬ src <+: e'.1 ∧ ¬ dst <+: e'.1) := by
  unfold FS.move at h
  rcases List.mem_filterMap.mp h with ⟨e, hef, hfe⟩
  obtain ⟨k, v⟩ := e
  by_cases h1 : src <+: k
  · obtain ⟨tail, htail⟩ := h1
    subst htail
    rw [if_pos (pfx_bool_true ⟨tail, rfl⟩)] at hfe
    injection hfe with h2
    refine Or.inl ⟨tail, v, hef, ?_⟩
    rw [← h2]
    dsimp only
    rw [List.drop_left]
  · rw [if_neg (pfx_bool_not h1)] at hfe
    by_cases h2 : dst <+: k
    · rw [if_pos (pfx_bool_true h2)] at hfe
      simp at hfe
    · rw [if_neg (pfx_bool_not h2)] at hfe
      injection hfe with h3
      subst h3
      exact Or.inr ⟨hef, h1, h2⟩

/-- A successful rename preserves ancestor-closedness of the filesystem. -/
lemma rename_closed {fs fs' : FS} {src dst : List String} (hC : Closed fs)
    (h : FS.rename fs src dst = some fs') : Closed fs' := by
  rcases rename_ok_cases h with ⟨_, hfs⟩ | ⟨hne, hfs⟩
  · rwa [hfs]
  obtain ⟨hnp, hnil, hdirp⟩ := rename_ok_guards h hne
  subst hfs
  intro e' he' n hn
  rcases move_mem he' with ⟨tail, v, hmem, hee⟩ | ⟨hmem, hs1, hd1⟩
  · subst hee
    dsimp only at hn ⊢
    rcases Nat.lt_or_ge n dst.length with hlen | hlen
    · -- the ancestor is strictly above `dst`: it is untouched by the move
      have htake : (dst ++ tail).take n = dst.take n := by
        rw [List.take_append_eq_append_take, Nat.sub_eq_zero_of_le (Nat.le_of_lt hlen),
          List.take_zero, List.append_nil]
      rw [htake]
      have hqd : dst.take n <+: dst := List.take_prefix n dst
      have hlq : (dst.take n).length = n := by
        rw [List.length_take]
        omega
      have hnotS : ¬ src <+: dst.take n := fun hx => hnp (hx.trans hqd)
      have hnotD : ¬ dst <+: dst.take n := fun hx => by
        have := hx.length_le
        omega
      rw [move_find_other fs src dst hnotS hnotD]
      have hlenpos : dst.length ≠ 0 := fun hx => hnil (List.length_eq_zero.mp hx)
      have hq2 : dst.dropLast.take n = dst.take n := by
        rw [List.dropLast_eq_take, List.take_take]
        congr 1
        omega
      have hdirfind : FS.find fs dst.dropLast = some Node.dir := isDir_iff.mp hdirp
      by_cases hlast : n = dst.length - 1
      · rw [hlast, ← List.dropLast_eq_take]
        exact hdirfind
      · have hpq : dst.take n <+: dst.dropLast := by
          rw [← hq2]
          exact List.take_prefix n dst.dropLast
        have hneq : dst.take n ≠ dst.dropLast := by
          intro hx
          have h3 := congrArg List.length hx
          rw [hlq, List.length_dropLast] at h3
          omega
        exact Closed.ancestor hC hpq hneq (by rw [hdirfind]; rfl)
    · -- the ancestor lies inside the moved subtree
      have htk : (dst ++ tail).take n = dst ++ tail.take (n - dst.length) := by
        rw [List.take_append_eq_append_take, List.take_of_length_le hlen]
      rw [htk, move_find_dst]
      have hmem2 := hC (src ++ tail, v) hmem (src.length + (n - dst.length))
      dsimp only at hmem2
      have hbound : src.length + (n - dst.length) < (src ++ tail).length := by
        rw [List.length_append]
        rw [List.length_append] at hn
        omega
      have htk2 : (src ++ tail).take (src.length + (n - dst.length)) =
          src ++ tail.take (n - dst.length) := by
        rw [List.take_append_eq_append_take, List.take_of_length_le (by omega),
          Nat.add_sub_cancel_left]
      rw [htk2] at hmem2
      exact hmem2 hbound
  · -- an untouched entry: its ancestors are untouched as well
    have hq : e'.1.take n <+: e'.1 := List.take_prefix n e'.1
    have hnotS : ¬ src <+: e'.1.take n := fun hx => hs1 (hx.trans hq)
    have hnotD : ¬ dst <+: e'.1.take n := fun hx => hd1 (hx.trans hq)
    rw [move_find_other fs src dst hnotS hnotD]
    exact hC e' hmem n hn

/-! ### The three-move skeleton -/

lemma safe_rename_ok {f t : List String} {s s1 : St}
    (h : safe_rename f t s = Outcome.ok s1) :
    FS.rename s.fs f t = some s1.fs ∧ s1.trace = s.trace ++ [(f, t)] := by
  unfold safe_rename at h
  cases hr : FS.rename s.fs f t <;> rw [hr] at h
  · simp at h
  · injection h with h2
    subst h2
    exact ⟨rfl, rfl⟩

lemma do_three_ok_extract {a t b d2 d1 : List String} {s s' : St}
    (h : do_three a t b d2 d1 s = Outcome.ok s') :
    ∃ fs1 fs2, FS.rename s.fs a t = some fs1 ∧
      FS.rename fs1 b d2 = some fs2 ∧
      FS.rename fs2 t d1 = some s'.fs ∧
      s'.trace = s.trace ++ [(a, t), (b, d2), (t, d1)] := by
  unfold do_three at h
  cases h1 : safe_rename a t s <;> rw [h1] at h <;> dsimp only at h
  case ok s1 =>
    cases h2 : safe_rename b d2 s1 <;> rw [h2] at h <;> dsimp only at h
    case ok s2 =>
      obtain ⟨r1, tr1⟩ := safe_rename_ok h1
      obtain ⟨r2, tr2⟩ := safe_rename_ok h2
      obtain ⟨r3, tr3⟩ := safe_rename_ok h
      refine ⟨s1.fs, s2.fs, r1, r2, r3, ?_⟩
      rw [tr3, tr2, tr1]
      simp
    case err => simp at h
    case panicked => simp at h
  case err => simp at h
  case panicked => simp at h

/-- Functional correctness of the three-move skeleton, conditioned on all
three renames succeeding and on the listed separation facts. -/
lemma do_three_ok_spec {a t b d2 d1 : List String} {s s' : St}
    (hab : Incomp a b) (htb : Incomp t b) (htd1 : Incomp t d1)
    (htd2 : Incomp t d2) (hd12 : Incomp d1 d2)
    (h : do_three a t b d2 d1 s = Outcome.ok s') :
    s'.trace = s.trace ++ [(a, t), (b, d2), (t, d1)] ∧
    (∀ rest, FS.find s'.fs (d1 ++ rest) = FS.find s.fs (a ++ rest)) ∧
    (∀ rest, FS.find s'.fs (d2 ++ rest) = FS.find s.fs (b ++ rest)) ∧
    (∀ rest, FS.find s'.fs (t ++ rest) = none) := by
  obtain ⟨fs1, fs2, r1, r2, r3, tr⟩ := do_three_ok_extract h
  refine ⟨tr, ?_, ?_, ?_⟩
  · intro rest
    rw [rename_find_dst r3 rest,
      rename_find_other r2 (not_pfx_ext htb.symm rest) (not_pfx_ext htd2.symm rest),
      rename_find_dst r1 rest]
  · intro rest
    rw [rename_find_other r3 (not_pfx_ext htd2 rest) (not_pfx_ext hd12 rest),
      rename_find_dst r2 rest,
      rename_find_other r1 (not_pfx_ext hab rest) (not_pfx_ext htb rest)]
  · intro rest
    exact rename_find_src r3 htd1.ne ⟨rest, rfl⟩ (not_pfx_ext htd1.symm rest)

lemma do_three_fail1 {a t b d2 d1 : List String} {s : St}
    (hr : FS.rename s.fs a t = none) :
    do_three a t b d2 d1 s =
      Outcome.err (SwapError.Io a) ⟨s.fs, s.trace ++ [(a, t)]⟩ := by
  unfold do_three safe_rename
  rw [hr]

lemma do_three_fail2 {a t b d2 d1 : List String} {s : St} {fs1 : FS}
    (hr1 : FS.rename s.fs a t = some fs1)
    (hr2 : FS.rename fs1 b d2 = none) :
    do_three a t b d2 d1 s =
      Outcome.err (SwapError.Io b) ⟨fs1, s.trace ++ [(a, t), (b, d2)]⟩ := by
  unfold do_three safe_rename
  rw [hr1]
  dsimp only
  rw [hr2]
  dsimp only
  rw [List.append_assoc]
  rfl

lemma do_three_fail3 {a t b d2 d1 : List String} {s : St} {fs1 fs2 : FS}
    (hr1 : FS.rename s.fs a t = some fs1)
    (hr2 : FS.rename fs1 b d2 = some fs2)
    (hr3 : FS.rename fs2 t d1 = none) :
    do_three a t b d2 d1 s =
      Outcome.err (SwapError.Io t)
        ⟨fs2, s.trace ++ [(a, t), (b, d2), (t, d1)]⟩ := by
  unfold do_three safe_rename
  rw [hr1]
  dsimp only
  rw [hr2]
  dsimp only
  rw [hr3]
  dsimp only
  rw [List.append_assoc, List.append_assoc]
  rfl

/-! ### Unfolding the two engines to the skeleton -/

lemma swap_locations_eq (p1 p2 : List String) (n1 n2 u : String) (s : St) :
    swap_locations (p1 ++ [n1]) (p2 ++ [n2]) u s =
      do_three (p1 ++ [n1]) (p1 ++ [tmpName n1 u]) (p2 ++ [n2])
        (p1 ++ [n2]) (p2 ++ [n1]) s := by
  unfold swap_locations do_three generate_temporary_path parent? fileName?
  simp

lemma swap_names_eq (p1 p2 : List String) (n1 n2 u : String) (s : St) :
    swap_names (p1 ++ [n1]) (p2 ++ [n2]) u s =
      do_three (p1 ++ [n1]) (p1 ++ [tmpName n1 u]) (p2 ++ [n2])
        (p2 ++ [n1]) (p1 ++ [n2]) s := by
  unfold swap_names do_three generate_temporary_path parent? fileName?
  simp

/-! ### Core correctness of the two engines -/

/-- Core specification of a successful `swap_locations`: the exact rename
sequence is recorded and the subtrees end up exchanged.  The separation
between the two final destinations is derived, not assumed. -/
lemma swap_locations_ok_spec {p1 p2 : List String} {n1 n2 u : String} {s s' : St}
    (hC : Closed s.fs)
    (hab : Incomp (p1 ++ [n1]) (p2 ++ [n2]))
    (htb : Incomp (p1 ++ [tmpName n1 u]) (p2 ++ [n2]))
    (htd1 : Incomp (p1 ++ [tmpName n1 u]) (p2 ++ [n1]))
    (htd2 : Incomp (p1 ++ [tmpName n1 u]) (p1 ++ [n2]))
    (hok : swap_locations (p1 ++ [n1]) (p2 ++ [n2]) u s = Outcome.ok s') :
    Incomp (p2 ++ [n1]) (p1 ++ [n2]) ∧
    s'.trace = s.trace ++ [(p1 ++ [n1], p1 ++ [tmpName n1 u]),
      (p2 ++ [n2], p1 ++ [n2]), (p1 ++ [tmpName n1 u], p2 ++ [n1])] ∧
    (∀ rest, FS.find s'.fs (p2 ++ [n1] ++ rest) = FS.find s.fs (p1 ++ [n1] ++ rest)) ∧
    (∀ rest, FS.find s'.fs (p1 ++ [n2] ++ rest) = FS.find s.fs (p2 ++ [n2] ++ rest)) ∧
    (∀ rest, FS.find s'.fs (p1 ++ [tmpName n1 u] ++ rest) = none) := by
  rw [swap_locations_eq] at hok
  obtain ⟨fs1, fs2, r1, r2, r3, _⟩ := do_three_ok_extract hok
  have hd12 : Incomp (p2 ++ [n1]) (p1 ++ [n2]) := by
    constructor
    · intro hpre
      by_cases heq : p2 ++ [n1] = p1 ++ [n2]
      · obtain ⟨hp, hn⟩ := concat_inj heq
        exact hab.ne (by rw [hp, hn])
      · have h1 : p2 ++ [n1] <+: p1 := pfx_concat hpre heq
        exact htd1.2 (h1.trans ⟨[tmpName n1 u], rfl⟩)
    · intro hpre
      by_cases heq : p1 ++ [n2] = p2 ++ [n1]
      · obtain ⟨hp, hn⟩ := concat_inj heq
        exact hab.ne (by rw [hp, ← hn])
      · have h1 : p1 ++ [n2] <+: p2 := pfx_concat hpre heq
        have h2 : p1 ++ [n2] <+: p2 ++ [n2] := h1.trans ⟨[n2], rfl⟩
        have hlen1 := h1.length_le
        have hne : p1 ++ [n2] ≠ p2 ++ [n2] := by
          intro hx
          have hl := congrArg List.length hx
          simp [List.length_append] at hl hlen1
          omega
        have hB1 : (FS.find fs1 (p2 ++ [n2])).isSome := rename_ok_src_isSome r2
        have hB0 : (FS.find s.fs (p2 ++ [n2])).isSome := by
          rw [← rename_find_other r1 hab.1 htb.1]
          exact hB1
        have hdir0 : FS.find s.fs (p1 ++ [n2]) = some Node.dir :=
          hC.ancestor h2 hne hB0
        have hdir1 : FS.find fs1 (p1 ++ [n2]) = some Node.dir := by
          rw [rename_find_other r1 (fun hx => hab.1 (hx.trans h2)) htd2.1]
          exact hdir0
        obtain ⟨nb, hnb⟩ := Option.isSome_iff_exists.mp hB1
        have hmem := find_mem hnb
        have hfail := rename_fails hdir1
          ⟨(p2 ++ [n2], nb), hmem, h2, Ne.symm hne⟩ (Ne.symm hne)
        rw [hfail] at r2
        exact absurd r2 (by simp)
  have main := do_three_ok_spec hab htb htd1 htd2 hd12 hok
  exact ⟨hd12, main.1, main.2.1, main.2.2.1, main.2.2.2⟩

/-- Core specification of a successful `swap_names`: the exact rename
sequence is recorded and the two entries exchange names.  The separation
between the two final destinations is derived, not assumed. -/
lemma swap_names_ok_spec {p1 p2 : List String} {n1 n2 u : String} {s s' : St}
    (hC : Closed s.fs)
    (hab : Incomp (p1 ++ [n1]) (p2 ++ [n2]))
    (htb : Incomp (p1 ++ [tmpName n1 u]) (p2 ++ [n2]))
    (htd1 : Incomp (p1 ++ [tmpName n1 u]) (p1 ++ [n2]))
    (htd2 : Incomp (p1 ++ [tmpName n1 u]) (p2 ++ [n1]))
    (hok : swap_names (p1 ++ [n1]) (p2 ++ [n2]) u s = Outcome.ok s') :
    s'.trace = s.trace ++ [(p1 ++ [n1], p1 ++ [tmpName n1 u]),
      (p2 ++ [n2], p2 ++ [n1]), (p1 ++ [tmpName n1 u], p1 ++ [n2])] ∧
    (∀ rest, FS.find s'.fs (p1 ++ [n2] ++ rest) = FS.find s.fs (p1 ++ [n1] ++ rest)) ∧
    (∀ rest, FS.find s'.fs (p2 ++ [n1] ++ rest) = FS.find s.fs (p2 ++ [n2] ++ rest)) ∧
    (∀ rest, FS.find s'.fs (p1 ++ [tmpName n1 u] ++ rest) = none) := by
  rw [swap_names_eq] at hok
  obtain ⟨fs1, fs2, r1, r2, r3, _⟩ := do_three_ok_extract hok
  have hA : ¬ (p2 ++ [n1]) <+: (p1 ++ [n2]) := by
    intro hpre
    by_cases hnn : n1 = n2
    · subst hnn
      exact hab.2 hpre
    · by_cases heq : p2 ++ [n1] = p1 ++ [n2]
      · exact hnn (concat_inj heq).2
      · have h1 : p2 ++ [n1] <+: p1 := pfx_concat hpre heq
        have h2 : p2 ++ [n1] <+: p1 ++ [n1] := h1.trans ⟨[n1], rfl⟩
        have hlen1 := h1.length_le
        have hneA : p2 ++ [n1] ≠ p1 ++ [n1] := by
          intro hx
          have hl := congrArg List.length hx
          simp [List.length_append] at hl hlen1
          omega
        have hA0 : (FS.find s.fs (p1 ++ [n1])).isSome := rename_ok_src_isSome r1
        have hdir0 : FS.find s.fs (p2 ++ [n1]) = some Node.dir :=
          hC.ancestor h2 hneA hA0
        have hnA2 : ¬ (p1 ++ [n1]) <+: (p2 ++ [n1]) := by
          intro hx
          have hxl := hx.length_le
          simp [List.length_append] at hxl hlen1
          omega
        have hdir1 : FS.find fs1 (p2 ++ [n1]) = some Node.dir := by
          rw [rename_find_other r1 hnA2 htd2.1]
          exact hdir0
        have h3 : p2 ++ [n1] <+: p1 ++ [tmpName n1 u] :=
          h1.trans ⟨[tmpName n1 u], rfl⟩
        have htfind : FS.find fs1 (p1 ++ [tmpName n1 u]) =
            FS.find s.fs (p1 ++ [n1]) := by
          have h4 := rename_find_dst r1 []
          simpa using h4
        obtain ⟨na, hna⟩ := Option.isSome_iff_exists.mp hA0
        have hmemt := find_mem (htfind.trans hna)
        have htne : p1 ++ [tmpName n1 u] ≠ p2 ++ [n1] := by
          intro hx
          have hl := congrArg List.length hx
          simp [List.length_append] at hl hlen1
          omega
        have hBne : p2 ++ [n2] ≠ p2 ++ [n1] := fun hx =>
          hnn (concat_inj hx).2.symm
        have hfail := rename_fails hdir1
          ⟨(p1 ++ [tmpName n1 u], na), hmemt, h3, htne⟩ hBne
        rw [hfail] at r2
        exact absurd r2 (by simp)
  have hd12 : Incomp (p1 ++ [n2]) (p2 ++ [n1]) := by
    refine ⟨?_, hA⟩
    intro hpre
    by_cases heq : p1 ++ [n2] = p2 ++ [n1]
    · obtain ⟨hp, hn⟩ := concat_inj heq
      exact hab.ne (by rw [hp, hn])
    · have h1 : p1 ++ [n2] <+: p2 := pfx_concat hpre heq
      have h2 : p1 ++ [n2] <+: p2 ++ [n2] := h1.trans ⟨[n2], rfl⟩
      have hlen1 := h1.length_le
      have hneB : p1 ++ [n2] ≠ p2 ++ [n2] := by
        intro hx
        have hl := congrArg List.length hx
        simp [List.length_append] at hl hlen1
        omega
      have hB1 : (FS.find fs1 (p2 ++ [n2])).isSome := rename_ok_src_isSome r2
      have hB0 : (FS.find s.fs (p2 ++ [n2])).isSome := by
        rw [← rename_find_other r1 hab.1 htb.1]
        exact hB1
      have hdir0 : FS.find s.fs (p1 ++ [n2]) = some Node.dir :=
        hC.ancestor h2 hneB hB0
      have hdir1 : FS.find fs1 (p1 ++ [n2]) = some Node.dir := by
        rw [rename_find_other r1 (fun hx => hab.1 (hx.trans h2)) htd1.1]
        exact hdir0
      have hnB : ¬ (p2 ++ [n2]) <+: (p1 ++ [n2]) := by
        intro hx
        have hxl := hx.length_le
        simp [List.length_append] at hxl hlen1
        omega
      have hdir2 : FS.find fs2 (p1 ++ [n2]) = some Node.dir := by
        rw [rename_find_other r2 hnB hA]
        exact hdir1
      have hd2find : FS.find fs2 (p2 ++ [n1]) = FS.find fs1 (p2 ++ [n2]) := by
        have h4 := rename_find_dst r2 []
        simpa using h4
      obtain ⟨nb, hnb⟩ := Option.isSome_iff_exists.mp hB1
      have hmem := find_mem (hd2find.trans hnb)
      have hfail := rename_fails hdir2
        ⟨(p2 ++ [n1], nb), hmem, hpre, fun hx => heq hx.symm⟩ htd1.ne
      rw [hfail] at r3
      exact absurd r3 (by simp)
  have main := do_three_ok_spec hab htb htd1 htd2 hd12 hok
  exact ⟨main.1, main.2.1, main.2.2.1, main.2.2.2⟩

/-! ### Panic-freedom and error-shape helpers -/

lemma parent?_ne {p : List String} {x : List String} (h : parent? p = some x) :
    p ≠ [] := by
  intro hp
  subst hp
  simp [parent?] at h

lemma fileName?_of_ne {p : List String} (hp : p ≠ []) :
    ∃ n, fileName? p = some n := by
  unfold fileName?
  cases hg : p.getLast? with
  | none => exact absurd (List.getLast?_eq_none_iff.mp hg) hp
  | some n => exact ⟨n, rfl⟩

lemma safe_rename_not_panic (f t : List String) (s : St) :
    (safe_rename f t s).isPanic = false := by
  unfold safe_rename
  cases FS.rename s.fs f t <;> rfl

lemma do_three_not_panic (a t b d2 d1 : List String) (s : St) :
    (do_three a t b d2 d1 s).isPanic = false := by
  unfold do_three
  cases h1 : safe_rename a t s <;> dsimp only
  case ok s1 =>
    cases h2 : safe_rename b d2 s1 <;> dsimp only
    case ok s2 => exact safe_rename_not_panic t d1 s2
    case err => rfl
    case panicked s'' =>
      have hx := safe_rename_not_panic b d2 s1
      rw [h2] at hx
      simp [Outcome.isPanic] at hx
  case err => rfl
  case panicked s'' =>
    have hx := safe_rename_not_panic a t s
    rw [h1] at hx
    simp [Outcome.isPanic] at hx

lemma gen_ok {p1 : List String} {n u : String} :
    generate_temporary_path (p1 ++ [n]) u = PRes.ok (p1 ++ [tmpName n u]) := by
  simp [generate_temporary_path, parent?, fileName?]

lemma swap_locations_not_panic (a b : List String) (u : String) (s : St) :
    (swap_locations a b u s).isPanic = false := by
  unfold swap_locations
  cases hp1 : parent? a <;> dsimp only
  · rfl
  cases hp2 : parent? b <;> dsimp only
  · rfl
  obtain ⟨m1, hm1⟩ := fileName?_of_ne (parent?_ne hp1)
  obtain ⟨m2, hm2⟩ := fileName?_of_ne (parent?_ne hp2)
  rw [hm1, hm2]
  dsimp only
  have hg : generate_temporary_path a u = PRes.ok ((parent? a).getD [] ++ [tmpName m1 u]) := by
    unfold generate_temporary_path
    rw [hp1, hm1]
    rfl
  rw [hg]
  dsimp only
  exact do_three_not_panic _ _ _ _ _ _

lemma swap_names_not_panic (a b : List String) (u : String) (s : St) :
    (swap_names a b u s).isPanic = false := by
  unfold swap_names
  cases hp1 : parent? a <;> dsimp only
  · rfl
  cases hp2 : parent? b <;> dsimp only
  · rfl
  obtain ⟨m1, hm1⟩ := fileName?_of_ne (parent?_ne hp1)
  obtain ⟨m2, hm2⟩ := fileName?_of_ne (parent?_ne hp2)
  rw [hm1, hm2]
  dsimp only
  have hg : generate_temporary_path a u = PRes.ok ((parent? a).getD [] ++ [tmpName m1 u]) := by
    unfold generate_temporary_path
    rw [hp1, hm1]
    rfl
  rw [hg]
  dsimp only
  exact do_three_not_panic _ _ _ _ _ _

lemma gen_not_panic (p : List String) (u : String) :
    (generate_temporary_path p u).isPanic = false := by
  unfold generate_temporary_path
  cases hp : parent? p <;> dsimp only
  · rfl
  · obtain ⟨n, hn⟩ := fileName?_of_ne (parent?_ne hp)
    rw [hn]
    rfl

lemma safe_rename_no_pnf {f t : List String} {s s' : St} {q : List String}
    (h : safe_rename f t s = Outcome.err (SwapError.PathNotFound q) s') :
    False := by
  unfold safe_rename at h
  cases hr : FS.rename s.fs f t <;> rw [hr] at h <;> simp_all

lemma do_three_no_pnf {a t b d2 d1 : List String} {s s' : St} {q : List String}
    (h : do_three a t b d2 d1 s = Outcome.err (SwapError.PathNotFound q) s') :
    False := by
  unfold do_three at h
  cases h1 : safe_rename a t s <;> rw [h1] at h <;> dsimp only at h
  case ok s1 =>
    cases h2 : safe_rename b d2 s1 <;> rw [h2] at h <;> dsimp only at h
    case ok s2 => exact safe_rename_no_pnf h
    case err e s'' =>
      injection h with he hs
      subst he
      exact safe_rename_no_pnf h2
    case panicked => simp at h
  case err e s'' =>
    injection h with he hs
    subst he
    exact safe_rename_no_pnf h1
  case panicked => simp at h

lemma swap_locations_no_pnf {a b : List String} {u : String} {s s' : St}
    {q : List String}
    (h : swap_locations a b u s = Outcome.err (SwapError.PathNotFound q) s') :
    False := by
  unfold swap_locations at h
  cases hp1 : parent? a <;> rw [hp1] at h <;> dsimp only at h
  · simp at h
  cases hp2 : parent? b <;> rw [hp2] at h <;> dsimp only at h
  · simp at h
  obtain ⟨m1, hm1⟩ := fileName?_of_ne (parent?_ne hp1)
  obtain ⟨m2, hm2⟩ := fileName?_of_ne (parent?_ne hp2)
  rw [hm1, hm2] at h
  dsimp only at h
  have hg : generate_temporary_path a u = PRes.ok ((parent? a).getD [] ++ [tmpName m1 u]) := by
    unfold generate_temporary_path
    rw [hp1, hm1]
    rfl
  rw [hg] at h
  dsimp only at h
  exact do_three_no_pnf h

lemma swap_names_no_pnf {a b : List String} {u : String} {s s' : St}
    {q : List String}
    (h : swap_names a b u s = Outcome.err (SwapError.PathNotFound q) s') :
    False := by
  unfold swap_names at h
  cases hp1 : parent? a <;> rw [hp1] at h <;> dsimp only at h
  · simp at h
  cases hp2 : parent? b <;> rw [hp2] at h <;> dsimp only at h
  · simp at h
  obtain ⟨m1, hm1⟩ := fileName?_of_ne (parent?_ne hp1)
  obtain ⟨m2, hm2⟩ := fileName?_of_ne (parent?_ne hp2)
  rw [hm1, hm2] at h
  dsimp only at h
  have hg : generate_temporary_path a u = PRes.ok ((parent? a).getD [] ++ [tmpName m1 u]) := by
    unfold generate_temporary_path
    rw [hp1, hm1]
    rfl
  rw [hg] at h
  dsimp only at h
  exact do_three_no_pnf h

/-! ### Claim theorems -/

/-- C10: on canonical component paths, `file_name` is defined exactly when
`parent` is, so the `file_name().unwrap()` calls in `swap_locations`,
`swap_names` and `generate_temporary_path` never panic: every path on which
the unwrap would fail is rejected earlier with `MissingParent`. -/
theorem C10_unwrap_never_panics :
    (∀ p : List String, (fileName? p).isSome = (parent? p).isSome) ∧
    (∀ (a b : List String) (u : String) (s : St),
      (swap_locations a b u s).isPanic = false ∧
      (swap_names a b u s).isPanic = false) ∧
    (∀ (p : List String) (u : String),
      (generate_temporary_path p u).isPanic = false) := by
  refine ⟨?_, ?_, ?_⟩
  · intro p
    cases p with
    | nil => rfl
    | cons x l =>
      unfold fileName? parent?
      rw [if_neg (by simp)]
      simp
  · intro a b u s
    exact ⟨swap_locations_not_panic a b u s, swap_names_not_panic a b u s⟩
  · intro p u
    exact gen_not_panic p u

/-- C7: `run` classifies a canonicalization failure of either input as
`PathNotFound` (when the target does not exist) or `IoFailure` carrying the
offending user-supplied path, it does so before the identity check, the
nested check and any rename (the state, trace included, is returned
untouched), and `PathNotFound` arises from no other source. -/
theorem C7_resolution_errors
    (canon : List String → Except CanonFail (List String)) (u : String)
    (cli : Cli) (s : St) :
    (canon cli.path1 = Except.error CanonFail.notFound →
      run canon u cli s = Outcome.err (SwapError.PathNotFound cli.path1) s) ∧
    (canon cli.path1 = Except.error CanonFail.other →
      run canon u cli s = Outcome.err (SwapError.Io cli.path1) s) ∧
    (∀ c1, canon cli.path1 = Except.ok c1 →
      canon cli.path2 = Except.error CanonFail.notFound →
      run canon u cli s = Outcome.err (SwapError.PathNotFound cli.path2) s) ∧
    (∀ c1, canon cli.path1 = Except.ok c1 →
      canon cli.path2 = Except.error CanonFail.other →
      run canon u cli s = Outcome.err (SwapError.Io cli.path2) s) ∧
    (∀ q s', run canon u cli s = Outcome.err (SwapError.PathNotFound q) s' →
      s' = s ∧
      ((q = cli.path1 ∧ canon cli.path1 = Except.error CanonFail.notFound) ∨
       (q = cli.path2 ∧ canon cli.path2 = Except.error CanonFail.notFound ∧
        ∃ c1, canon cli.path1 = Except.ok c1))) := by
  refine ⟨?_, ?_, ?_, ?_, ?_⟩
  · intro h1
    unfold run
    rw [h1]
    rfl
  · intro h1
    unfold run
    rw [h1]
    rfl
  · intro c1 h1 h2
    unfold run
    rw [h1, h2]
    rfl
  · intro c1 h1 h2
    unfold run
    rw [h1, h2]
    rfl
  · intro q s' hrun
    unfold run at hrun
    cases h1 : canon cli.path1 <;> rw [h1] at hrun <;> dsimp only at hrun
    case error e =>
      cases e <;> dsimp only [map_canonicalize_error] at hrun
      · injection hrun with he hs
        injection he with hq
        exact ⟨hs.symm, Or.inl ⟨hq.symm, rfl⟩⟩
      · simp at hrun
    case ok c1 =>
      cases h2 : canon cli.path2 <;> rw [h2] at hrun <;> dsimp only at hrun
      case error e =>
        cases e <;> dsimp only [map_canonicalize_error] at hrun
        · injection hrun with he hs
          injection he with hq
          exact ⟨hs.symm, Or.inr ⟨hq.symm, rfl, c1, rfl⟩⟩
        · simp at hrun
      case ok c2 =>
        by_cases heq : c1 = c2
        · rw [if_pos heq] at hrun
          simp at hrun
        · rw [if_neg heq] at hrun
          by_cases hn1 : (FS.isDir s.fs c1 && c1.isPrefixOf c2) = true
          · rw [if_pos hn1] at hrun
            simp at hrun
          · rw [if_neg hn1] at hrun
            by_cases hn2 : (FS.isDir s.fs c2 && c2.isPrefixOf c1) = true
            · rw [if_pos hn2] at hrun
              simp at hrun
            · rw [if_neg hn2] at hrun
              by_cases hm : cli.name_swap = true
              · rw [if_pos hm] at hrun
                exact absurd hrun (fun hx => swap_names_no_pnf hx)
              · rw [if_neg hm] at hrun
                exact absurd hrun (fun hx => swap_locations_no_pnf hx)

/-- C4: when one resolved path is a directory and the other is a proper
descendant of it (component-wise prefix), `run` fails with
`SwapIntoSubdirectory` (the spec's `NestedSwap`) in both argument orders
and regardless of the mode flag, returning the state untouched — no rename
is attempted. -/
theorem C4_nested_swap_rejected
    (canon : List String → Except CanonFail (List String)) (u : String)
    (cli : Cli) (s : St) {c1 c2 : List String}
    (h1 : canon cli.path1 = Except.ok c1)
    (h2 : canon cli.path2 = Except.ok c2)
    (hne : c1 ≠ c2) :
    (FS.isDir s.fs c1 = true → c1 <+: c2 →
      run canon u cli s = Outcome.err SwapError.SwapIntoSubdirectory s) ∧
    (FS.isDir s.fs c2 = true → c2 <+: c1 →
      run canon u cli s = Outcome.err SwapError.SwapIntoSubdirectory s) := by
  constructor
  · intro hdir hpre
    unfold run
    rw [h1, h2]
    dsimp only
    rw [if_neg hne, if_pos (by rw [hdir, pfx_bool_true hpre]; rfl)]
  · intro hdir hpre
    unfold run
    rw [h1, h2]
    dsimp only
    rw [if_neg hne]
    have hnot : ¬ c1 <+: c2 := fun hx =>
      hne (hx.eq_of_length (Nat.le_antisymm hx.length_le hpre.length_le))
    rw [if_neg (by rw [pfx_bool_false hnot, Bool.and_false]; simp),
      if_pos (by rw [hdir, pfx_bool_true hpre]; rfl)]

/-- C5: when both inputs canonicalize to the same path — textually equal or
not — `run` fails with `SamePath` (the spec's `IdenticalPaths`) in every
mode, returning the state untouched — no rename is attempted. -/
theorem C5_identical_paths_rejected
    (canon : List String → Except CanonFail (List String)) (u : String)
    (cli : Cli) (s : St) {c : List String}
    (h1 : canon cli.path1 = Except.ok c)
    (h2 : canon cli.path2 = Except.ok c) :
    run canon u cli s = Outcome.err SwapError.SamePath s := by
  unfold run
  rw [h1, h2]
  dsimp only
  rw [if_pos rfl]

/-- C8: for a path with a parent (written `p1 ++ [n]`), the temporary-name
generator returns the sibling of the input inside the same parent whose
file name is the base name `n` followed by the fixed marker `.swap.` and
the per-invocation unique id; it touches no filesystem state (it takes
none).  For the one parentless canonical path — the root `[]` — it fails
with `MissingParent`. -/
theorem C8_temporary_path (u : String) :
    (∀ (p1 : List String) (n : String),
      generate_temporary_path (p1 ++ [n]) u = PRes.ok (p1 ++ [tmpName n u]) ∧
      parent? (p1 ++ [tmpName n u]) = parent? (p1 ++ [n]) ∧
      fileName? (p1 ++ [tmpName n u]) = some (n ++ ".swap." ++ u)) ∧
    generate_temporary_path [] u = PRes.err (SwapError.MissingParent []) := by
  constructor
  · intro p1 n
    refine ⟨gen_ok, ?_, ?_⟩
    · simp [parent?]
    · simp [fileName?, tmpName]
  · rfl

/-- C1: for valid (non-root, written `p1 ++ [n1]` and `p2 ++ [n2]`),
distinct, non-nested paths A and B — distinctness and non-nesting together
are `Incomp` — on an ancestor-closed filesystem, and with the freshly
generated temporary sibling name colliding with none of B and the two final
destinations, a successful LocationSwap issues exactly the three renames
A → temp, B → parent1/n2, temp → parent2/n1 in that order; afterwards the
entry (with its whole subtree) formerly at A is at parent2/n1, the entry
formerly at B is at parent1/n2, and no entry remains at or below the
temporary path. -/
theorem C1_location_swap {p1 p2 : List String} {n1 n2 u : String} {s s' : St}
    (hC : Closed s.fs)
    (hab : Incomp (p1 ++ [n1]) (p2 ++ [n2]))
    (htb : Incomp (p1 ++ [tmpName n1 u]) (p2 ++ [n2]))
    (htd1 : Incomp (p1 ++ [tmpName n1 u]) (p2 ++ [n1]))
    (htd2 : Incomp (p1 ++ [tmpName n1 u]) (p1 ++ [n2]))
    (hok : swap_locations (p1 ++ [n1]) (p2 ++ [n2]) u s = Outcome.ok s') :
    s'.trace = s.trace ++ [(p1 ++ [n1], p1 ++ [tmpName n1 u]),
      (p2 ++ [n2], p1 ++ [n2]), (p1 ++ [tmpName n1 u], p2 ++ [n1])] ∧
    (∀ rest, FS.find s'.fs (p2 ++ [n1] ++ rest) = FS.find s.fs (p1 ++ [n1] ++ rest)) ∧
    (∀ rest, FS.find s'.fs (p1 ++ [n2] ++ rest) = FS.find s.fs (p2 ++ [n2] ++ rest)) ∧
    (∀ rest, FS.find s'.fs (p1 ++ [tmpName n1 u] ++ rest) = none) := by
  obtain ⟨_, h1, h2, h3, h4⟩ := swap_locations_ok_spec hC hab htb htd1 htd2 hok
  exact ⟨h1, h2, h3, h4⟩

/-- C2: under the same validity, separation and freshness conditions as C1,
a successful NameSwap issues exactly the three renames A → temp,
B → parent2/n1, temp → parent1/n2 in that order; afterwards A's parent
holds under B's original name the entry formerly at A, and B's parent holds
under A's original name the entry formerly at B, the temporary path being
vacated. -/
theorem C2_name_swap {p1 p2 : List String} {n1 n2 u : String} {s s' : St}
    (hC : Closed s.fs)
    (hab : Incomp (p1 ++ [n1]) (p2 ++ [n2]))
    (htb : Incomp (p1 ++ [tmpName n1 u]) (p2 ++ [n2]))
    (htd1 : Incomp (p1 ++ [tmpName n1 u]) (p1 ++ [n2]))
    (htd2 : Incomp (p1 ++ [tmpName n1 u]) (p2 ++ [n1]))
    (hok : swap_names (p1 ++ [n1]) (p2 ++ [n2]) u s = Outcome.ok s') :
    s'.trace = s.trace ++ [(p1 ++ [n1], p1 ++ [tmpName n1 u]),
      (p2 ++ [n2], p2 ++ [n1]), (p1 ++ [tmpName n1 u], p1 ++ [n2])] ∧
    (∀ rest, FS.find s'.fs (p1 ++ [n2] ++ rest) = FS.find s.fs (p1 ++ [n1] ++ rest)) ∧
    (∀ rest, FS.find s'.fs (p2 ++ [n1] ++ rest) = FS.find s.fs (p2 ++ [n2] ++ rest)) ∧
    (∀ rest, FS.find s'.fs (p1 ++ [tmpName n1 u] ++ rest) = none) :=
  swap_names_ok_spec hC hab htb htd1 htd2 hok

/-- C3 (amended): the rename primitive checks nothing about the
destination; it issues a single `fs::rename`, which on Unix atomically
REPLACES an existing destination entry of a compatible kind.  In
particular, when source and destination are both existing files (the
destination's parent being a directory, the two paths being distinct and
un-nested), the rename SUCCEEDS and the destination afterwards holds the
source's former content — it does not fail because the destination
exists. -/
theorem C3_amended_rename_replaces {s : St} {f t : List String} {c c' : String}
    (hf : FS.find s.fs f = some (Node.file c))
    (ht : FS.find s.fs t = some (Node.file c'))
    (hne : f ≠ t) (hnp : ¬ f <+: t) (htnil : t ≠ [])
    (hpd : FS.isDir s.fs t.dropLast = true) :
    safe_rename f t s = Outcome.ok ⟨FS.move s.fs f t, s.trace ++ [(f, t)]⟩ ∧
    FS.find (FS.move s.fs f t) t = some (Node.file c) := by
  have hr : FS.rename s.fs f t = some (FS.move s.fs f t) := by
    unfold FS.rename
    rw [hf]
    dsimp only
    rw [if_neg hne, if_neg (pfx_bool_not hnp), if_neg htnil, if_pos hpd, ht]
  refine ⟨?_, ?_⟩
  · unfold safe_rename
    rw [hr]
  · have h2 := move_find_dst s.fs f t []
    rw [List.append_nil, List.append_nil] at h2
    rw [h2, hf]

/-- C6: the engines never roll back.  For both modes (each written over its
final destinations): if move 1 fails the run ends with `Io A` and the
filesystem is unchanged; if move 2 fails after move 1, the run ends with
`Io B`, the entry formerly at A sits at the temporary name and B is
untouched; if move 3 fails after moves 1 and 2, the run ends with
`Io temp`, B is at its final destination and A remains at the temporary
name.  The recorded trace ends at the failing attempt: no further rename
is issued. -/
theorem C6_no_rollback {p1 p2 : List String} {n1 n2 u : String} {s : St}
    (hab : Incomp (p1 ++ [n1]) (p2 ++ [n2]))
    (htb : Incomp (p1 ++ [tmpName n1 u]) (p2 ++ [n2]))
    (htd2L : Incomp (p1 ++ [tmpName n1 u]) (p1 ++ [n2]))
    (htd2N : Incomp (p1 ++ [tmpName n1 u]) (p2 ++ [n1])) :
    (FS.rename s.fs (p1 ++ [n1]) (p1 ++ [tmpName n1 u]) = none →
      swap_locations (p1 ++ [n1]) (p2 ++ [n2]) u s =
        Outcome.err (SwapError.Io (p1 ++ [n1]))
          ⟨s.fs, s.trace ++ [(p1 ++ [n1], p1 ++ [tmpName n1 u])]⟩ ∧
      swap_names (p1 ++ [n1]) (p2 ++ [n2]) u s =
        Outcome.err (SwapError.Io (p1 ++ [n1]))
          ⟨s.fs, s.trace ++ [(p1 ++ [n1], p1 ++ [tmpName n1 u])]⟩) ∧
    (∀ fs1, FS.rename s.fs (p1 ++ [n1]) (p1 ++ [tmpName n1 u]) = some fs1 →
      ((FS.rename fs1 (p2 ++ [n2]) (p1 ++ [n2]) = none →
        swap_locations (p1 ++ [n1]) (p2 ++ [n2]) u s =
          Outcome.err (SwapError.Io (p2 ++ [n2]))
            ⟨fs1, s.trace ++ [(p1 ++ [n1], p1 ++ [tmpName n1 u]),
              (p2 ++ [n2], p1 ++ [n2])]⟩) ∧
       (FS.rename fs1 (p2 ++ [n2]) (p2 ++ [n1]) = none →
        swap_names (p1 ++ [n1]) (p2 ++ [n2]) u s =
          Outcome.err (SwapError.Io (p2 ++ [n2]))
            ⟨fs1, s.trace ++ [(p1 ++ [n1], p1 ++ [tmpName n1 u]),
              (p2 ++ [n2], p2 ++ [n1])]⟩) ∧
       (∀ rest, FS.find fs1 (p1 ++ [tmpName n1 u] ++ rest) =
          FS.find s.fs (p1 ++ [n1] ++ rest)) ∧
       (∀ rest, FS.find fs1 (p2 ++ [n2] ++ rest) =
          FS.find s.fs (p2 ++ [n2] ++ rest)))) ∧
    (∀ fs1 fs2, FS.rename s.fs (p1 ++ [n1]) (p1 ++ [tmpName n1 u]) = some fs1 →
      ((FS.rename fs1 (p2 ++ [n2]) (p1 ++ [n2]) = some fs2 →
        FS.rename fs2 (p1 ++ [tmpName n1 u]) (p2 ++ [n1]) = none →
        swap_locations (p1 ++ [n1]) (p2 ++ [n2]) u s =
          Outcome.err (SwapError.Io (p1 ++ [tmpName n1 u]))
            ⟨fs2, s.trace ++ [(p1 ++ [n1], p1 ++ [tmpName n1 u]),
              (p2 ++ [n2], p1 ++ [n2]),
              (p1 ++ [tmpName n1 u], p2 ++ [n1])]⟩ ∧
        (∀ rest, FS.find fs2 (p1 ++ [n2] ++ rest) =
          FS.find s.fs (p2 ++ [n2] ++ rest)) ∧
        (∀ rest, FS.find fs2 (p1 ++ [tmpName n1 u] ++ rest) =
          FS.find s.fs (p1 ++ [n1] ++ rest))) ∧
       (FS.rename fs1 (p2 ++ [n2]) (p2 ++ [n1]) = some fs2 →
        FS.rename fs2 (p1 ++ [tmpName n1 u]) (p1 ++ [n2]) = none →
        swap_names (p1 ++ [n1]) (p2 ++ [n2]) u s =
          Outcome.err (SwapError.Io (p1 ++ [tmpName n1 u]))
            ⟨fs2, s.trace ++ [(p1 ++ [n1], p1 ++ [tmpName n1 u]),
              (p2 ++ [n2], p2 ++ [n1]),
              (p1 ++ [tmpName n1 u], p1 ++ [n2])]⟩ ∧
        (∀ rest, FS.find fs2 (p2 ++ [n1] ++ rest) =
          FS.find s.fs (p2 ++ [n2] ++ rest)) ∧
        (∀ rest, FS.find fs2 (p1 ++ [tmpName n1 u] ++ rest) =
          FS.find s.fs (p1 ++ [n1] ++ rest))))) := by
  refine ⟨?_, ?_, ?_⟩
  · intro hr1
    rw [swap_locations_eq, swap_names_eq]
    exact ⟨do_three_fail1 hr1, do_three_fail1 hr1⟩
  · intro fs1 hr1
    refine ⟨?_, ?_, ?_, ?_⟩
    · intro hr2
      rw [swap_locations_eq]
      exact do_three_fail2 hr1 hr2
    · intro hr2
      rw [swap_names_eq]
      exact do_three_fail2 hr1 hr2
    · intro rest
      exact rename_find_dst hr1 rest
    · intro rest
      exact rename_find_other hr1 (not_pfx_ext hab rest) (not_pfx_ext htb rest)
  · intro fs1 fs2 hr1
    constructor
    · intro hr2 hr3
      refine ⟨?_, ?_, ?_⟩
      · rw [swap_locations_eq]
        exact do_three_fail3 hr1 hr2 hr3
      · intro rest
        rw [rename_find_dst hr2 rest]
        exact rename_find_other hr1 (not_pfx_ext hab rest) (not_pfx_ext htb rest)
      · intro rest
        rw [rename_find_other hr2 (not_pfx_ext htb.symm rest)
          (not_pfx_ext htd2L.symm rest)]
        exact rename_find_dst hr1 rest
    · intro hr2 hr3
      refine ⟨?_, ?_, ?_⟩
      · rw [swap_names_eq]
        exact do_three_fail3 hr1 hr2 hr3
      · intro rest
        rw [rename_find_dst hr2 rest]
        exact rename_find_other hr1 (not_pfx_ext hab rest) (not_pfx_ext htb rest)
      · intro rest
        rw [rename_find_other hr2 (not_pfx_ext htb.symm rest)
          (not_pfx_ext htd2N.symm rest)]
        exact rename_find_dst hr1 rest

/-- C9: LocationSwap is a round trip.  After a successful
`swap_locations A B` the two entries sit at A' = parent2/n1 and
B' = parent1/n2; re-issuing `swap_locations A' B'` successfully (with a
fresh temporary id) returns both entries — subtrees included — to their
original locations. -/
theorem C9_location_swap_round_trip {p1 p2 : List String} {n1 n2 u1 u2 : String}
    {s s1 s2 : St}
    (hC : Closed s.fs)
    (hab : Incomp (p1 ++ [n1]) (p2 ++ [n2]))
    (htb1 : Incomp (p1 ++ [tmpName n1 u1]) (p2 ++ [n2]))
    (htd11 : Incomp (p1 ++ [tmpName n1 u1]) (p2 ++ [n1]))
    (htd21 : Incomp (p1 ++ [tmpName n1 u1]) (p1 ++ [n2]))
    (htb2 : Incomp (p2 ++ [tmpName n1 u2]) (p1 ++ [n2]))
    (htd12 : Incomp (p2 ++ [tmpName n1 u2]) (p1 ++ [n1]))
    (htd22 : Incomp (p2 ++ [tmpName n1 u2]) (p2 ++ [n2]))
    (hok1 : swap_locations (p1 ++ [n1]) (p2 ++ [n2]) u1 s = Outcome.ok s1)
    (hok2 : swap_locations (p2 ++ [n1]) (p1 ++ [n2]) u2 s1 = Outcome.ok s2) :
    (∀ rest, FS.find s2.fs (p1 ++ [n1] ++ rest) = FS.find s.fs (p1 ++ [n1] ++ rest)) ∧
    (∀ rest, FS.find s2.fs (p2 ++ [n2] ++ rest) = FS.find s.fs (p2 ++ [n2] ++ rest)) := by
  obtain ⟨hd12, _, f1, f2, _⟩ := swap_locations_ok_spec hC hab htb1 htd11 htd21 hok1
  have hC1 : Closed s1.fs := by
    have hok1' := hok1
    rw [swap_locations_eq] at hok1'
    obtain ⟨g1, g2, r1, r2, r3, _⟩ := do_three_ok_extract hok1'
    exact rename_closed (rename_closed (rename_closed hC r1) r2) r3
  obtain ⟨_, _, g1, g2, _⟩ := swap_locations_ok_spec hC1 hd12 htb2 htd12 htd22 hok2
  exact ⟨fun rest => (g1 rest).trans (f1 rest),
    fun rest => (g2 rest).trans (f2 rest)⟩

/-! ### Counterexample for the claim that rename never overwrites -/

/-- C3 as stated is false of the code: in this LocationSwap run the second
rename's destination `/p/b` already holds an entry, yet the swap succeeds —
the rename replaced the existing entry instead of failing — and the victim
content survives nowhere. -/
theorem C3_counterexample :
    FS.find wCex.fs ["p", "b"] = some (Node.file "victim") ∧
    swap_locations ["p", "a"] ["q", "b"] "u" wCex = Outcome.ok wCexOut ∧
    wCexOut.trace = [(["p", "a"], ["p", "a.swap.u"]), (["q", "b"], ["p", "b"]),
      (["p", "a.swap.u"], ["q", "a"])] ∧
    FS.find wCexOut.fs ["p", "b"] = some (Node.file "B") ∧
    (wCexOut.fs.all fun e => decide (e.2 ≠ Node.file "victim")) = true := by
  refine ⟨rfl, by decide, rfl, rfl, by decide⟩

/-! ### Witnesses -/

/-- Witness for C1 on the concrete state `wS`. -/
theorem C1_witness :
    Closed wS.fs ∧
    swap_locations (["p"] ++ ["a"]) (["q"] ++ ["b"]) "u" wS = Outcome.ok wS1 ∧
    FS.find wS1.fs ["q", "a"] = some (Node.file "A") ∧
    FS.find wS1.fs ["p", "b"] = some (Node.file "B") ∧
    FS.find wS1.fs ["p", "a.swap.u"] = none := by
  have h := @C1_location_swap ["p"] ["q"] "a" "b" "u" wS wS1
    (by decide) (by decide) (by decide) (by decide) (by decide) (by decide)
  refine ⟨by decide, by decide, ?_, ?_, ?_⟩
  · have h2 := h.2.1 []
    simp only [List.append_nil] at h2
    exact h2.trans (by decide)
  · have h2 := h.2.2.1 []
    simp only [List.append_nil] at h2
    exact h2.trans (by decide)
  · have h2 := h.2.2.2 []
    simp only [List.append_nil] at h2
    exact h2

/-- Witness for C2 on the concrete state `wS`. -/
theorem C2_witness :
    Closed wS.fs ∧
    swap_names (["p"] ++ ["a"]) (["q"] ++ ["b"]) "u" wS = Outcome.ok wS2 ∧
    FS.find wS2.fs ["p", "b"] = some (Node.file "A") ∧
    FS.find wS2.fs ["q", "a"] = some (Node.file "B") ∧
    FS.find wS2.fs ["p", "a.swap.u"] = none := by
  have h := @C2_name_swap ["p"] ["q"] "a" "b" "u" wS wS2
    (by decide) (by decide) (by decide) (by decide) (by decide) (by decide)
  refine ⟨by decide, by decide, ?_, ?_, ?_⟩
  · have h2 := h.2.1 []
    simp only [List.append_nil] at h2
    exact h2.trans (by decide)
  · have h2 := h.2.2.1 []
    simp only [List.append_nil] at h2
    exact h2.trans (by decide)
  · have h2 := h.2.2.2 []
    simp only [List.append_nil] at h2
    exact h2

/-- Witness for the amended C3 on the concrete state `wCex`. -/
theorem C3_amended_witness :
    safe_rename ["p", "a"] ["p", "b"] wCex =
      Outcome.ok ⟨FS.move wCex.fs ["p", "a"] ["p", "b"],
        [(["p", "a"], ["p", "b"])]⟩ ∧
    FS.find (FS.move wCex.fs ["p", "a"] ["p", "b"]) ["p", "b"] =
      some (Node.file "A") := by
  have h := @C3_amended_rename_replaces wCex ["p", "a"] ["p", "b"] "A" "victim"
    (by decide) (by decide) (by decide) (by decide) (by decide) (by decide)
  exact ⟨h.1, h.2⟩

/-- Witness for C4: both argument orders on the concrete state `wS`. -/
theorem C4_witness :
    run (fun p => Except.ok p) "u" wCli4 wS =
      Outcome.err SwapError.SwapIntoSubdirectory wS ∧
    run (fun p => Except.ok p) "u" wCli4r wS =
      Outcome.err SwapError.SwapIntoSubdirectory wS := by
  constructor
  · exact (C4_nested_swap_rejected (fun p => Except.ok p) "u" wCli4 wS
      rfl rfl (by decide)).1 (by decide) (by decide)
  · exact (C4_nested_swap_rejected (fun p => Except.ok p) "u" wCli4r wS
      rfl rfl (by decide)).2 (by decide) (by decide)

/-- Witness for C5: two textually different inputs resolving to one path. -/
theorem C5_witness :
    run (fun _ => Except.ok ["c"]) "u" wCli5 wS =
      Outcome.err SwapError.SamePath wS :=
  C5_identical_paths_rejected (fun _ => Except.ok ["c"]) "u" wCli5 wS rfl rfl

/-- Witness for C6 on the concrete state `wS`: swapping `/p/a` with the
nonexistent `/q/c`, move 2 fails after move 1 parked `/p/a` at its
temporary name. -/
theorem C6_witness :
    swap_locations (["p"] ++ ["a"]) (["q"] ++ ["c"]) "u" wS =
      Outcome.err (SwapError.Io (["q"] ++ ["c"]))
        ⟨wFS1, [(["p", "a"], ["p", "a.swap.u"]), (["q", "c"], ["p", "c"])]⟩ ∧
    FS.find wFS1 ["p", "a.swap.u"] = some (Node.file "A") ∧
    FS.find wFS1 ["q", "c"] = FS.find wS.fs ["q", "c"] := by
  have h := (@C6_no_rollback ["p"] ["q"] "a" "c" "u" wS
    (by decide) (by decide) (by decide) (by decide)).2.1 wFS1 (by decide)
  refine ⟨?_, ?_, ?_⟩
  · exact (h.1 (by decide)).trans (by decide)
  · have h2 := h.2.2.1 []
    simp only [List.append_nil] at h2
    exact h2.trans (by decide)
  · have h2 := h.2.2.2 []
    simp only [List.append_nil] at h2
    exact h2

/-- Witness for C7: the first input fails to resolve with not-found. -/
theorem C7_witness :
    run wCanon7 "u" wCli7 wS = Outcome.err (SwapError.PathNotFound ["r1"]) wS :=
  (C7_resolution_errors wCanon7 "u" wCli7 wS).1 rfl

/-- Witness for C9: the double LocationSwap on `wS` restores both files. -/
theorem C9_witness :
    swap_locations (["q"] ++ ["a"]) (["p"] ++ ["b"]) "v" wS1 = Outcome.ok wS9 ∧
    FS.find wS9.fs ["p", "a"] = FS.find wS.fs ["p", "a"] ∧
    FS.find wS9.fs ["q", "b"] = FS.find wS.fs ["q", "b"] := by
  have h := @C9_location_swap_round_trip ["p"] ["q"] "a" "b" "u" "v" wS wS1 wS9
    (by decide) (by decide) (by decide) (by decide) (by decide) (by decide)
    (by decide) (by decide) (by decide) (by decide)
  refine ⟨by decide, ?_, ?_⟩
  · have h2 := h.1 []
    simp only [List.append_nil] at h2
    exact h2
  · have h2 := h.2 []
    simp only [List.append_nil] at h2
    exact h2

end Swap
